import Mathlib

/-!
Verification of the flarequery core: a shallow embedding of the query
parser, planner and executor (packages/core/src), together with theorems
about field masks, authorization, allow-lists, id resolution, batching,
soft absences and error propagation.

JavaScript records are embedded as ordered association lists, JS values as
the inductive `Value`, promises/async as pure sequential evaluation (the
only concurrency in the source is `Promise.all` over independent branches,
which preserves array order), and thrown exceptions as `Except`.  The
executor additionally returns the ordered list of adapter calls it issued,
so that claims about reads can be stated.
-/

namespace Flare

/-- JS runtime values stored in documents (`unknown` in the source). -/
inductive Value where
  | null : Value
  | str : String → Value
  | num : Int → Value
  | bool : Bool → Value
  | arr : List Value → Value
  | obj : List (String × Value) → Value
deriving Repr

/-- Relation cardinality (`RelationType` in types.ts). -/
inductive RelationType where
  | one : RelationType
  | many : RelationType
deriving DecidableEq, Repr

/-- `RelationDefinition` in types.ts: foreign-key field, target model, cardinality. -/
structure RelationDefinition where
  «from» : String
  «to» : String
  type : RelationType
deriving Repr

/-- Scalar field kinds (`ScalarType` in types.ts). -/
inductive ScalarType where
  | string : ScalarType
  | number : ScalarType
  | boolean : ScalarType
  | timestamp : ScalarType
deriving DecidableEq, Repr

/-- `FieldDefinition` in types.ts: a scalar kind or a relation with an
optional select allow-list. -/
inductive FieldDefinition where
  | scalar : ScalarType → FieldDefinition
  | relationField : RelationDefinition → Option (List String) → FieldDefinition
deriving Repr

/-- `FirestoreCollectionRef` in types.ts. -/
structure FirestoreCollectionRef where
  path : String
deriving DecidableEq, Repr

/-- `QueryContext` in types.ts: subject id and claim set, both nullable. -/
structure QueryContext where
  userId : Option String
  token : Option (List (String × Value))

/-- `ModelDefinition` in types.ts: source collection, field record, optional
auth rule.  The field record is an association list looked up by name. -/
structure ModelDefinition where
  source : FirestoreCollectionRef
  fields : List (String × FieldDefinition)
  auth : Option (QueryContext → Bool)

/-- `QueryField` in types.ts: a selected field with child selections. -/
inductive QueryField where
  | mk : String → List QueryField → QueryField
deriving Repr

def QueryField.name : QueryField → String
  | .mk n _ => n

def QueryField.children : QueryField → List QueryField
  | .mk _ c => c

mutual
/-- Number of selection-tree nodes; the termination measure of the planner. -/
def QueryField.size : QueryField → Nat
  | .mk _ cs => 1 + QueryField.sizeList cs

def QueryField.sizeList : List QueryField → Nat
  | [] => 1
  | f :: fs => 1 + QueryField.size f + QueryField.sizeList fs
end

theorem QueryField.size_eq_children (f : QueryField) :
    f.size = 1 + QueryField.sizeList f.children := by
  cases f with
  | mk n c => rfl

/-- `QueryNode` in types.ts: root model name, literal id, selections. -/
structure QueryNode where
  model : String
  id : String
  selections : List QueryField
deriving Repr

mutual
/-- `ExecutionOp` in types.ts: `GetOneOp` or `GetManyOp`. -/
inductive ExecutionOp where
  | getOne : String → String → List String → List DependentRelation → ExecutionOp
  | getMany : String → String → List String → List DependentRelation → ExecutionOp

/-- `DependentRelation` in types.ts: output field, foreign key, cardinality,
child operation. -/
inductive DependentRelation where
  | mk : String → String → RelationType → ExecutionOp → DependentRelation
end

def ExecutionOp.collection : ExecutionOp → String
  | .getOne c _ _ _ => c
  | .getMany c _ _ _ => c

def ExecutionOp.fieldMask : ExecutionOp → List String
  | .getOne _ _ m _ => m
  | .getMany _ _ m _ => m

def ExecutionOp.dependents : ExecutionOp → List DependentRelation
  | .getOne _ _ _ d => d
  | .getMany _ _ _ d => d

def ExecutionOp.id : ExecutionOp → Option String
  | .getOne _ i _ _ => some i
  | .getMany _ _ _ _ => none

def DependentRelation.fieldName : DependentRelation → String
  | .mk n _ _ _ => n

def DependentRelation.foreignKey : DependentRelation → String
  | .mk _ k _ _ => k

def DependentRelation.relationType : DependentRelation → RelationType
  | .mk _ _ t _ => t

def DependentRelation.op : DependentRelation → ExecutionOp
  | .mk _ _ _ o => o

mutual
/-- Number of operation-tree nodes; the termination measure of the executor. -/
def ExecutionOp.size : ExecutionOp → Nat
  | .getOne _ _ _ ds => 1 + DependentRelation.sizeList ds
  | .getMany _ _ _ ds => 1 + DependentRelation.sizeList ds

def DependentRelation.size : DependentRelation → Nat
  | .mk _ _ _ o => 1 + ExecutionOp.size o

def DependentRelation.sizeList : List DependentRelation → Nat
  | [] => 0
  | d :: ds => DependentRelation.size d + DependentRelation.sizeList ds
end

/-- `ExecutionPlan` in types.ts: root operation plus the flat list of all
operations in construction order. -/
structure ExecutionPlan where
  root : ExecutionOp
  ops : List ExecutionOp

/-- `PlanError` in planner/index.ts (an `Error` subclass carrying a message). -/
structure PlanError where
  message : String
deriving DecidableEq, Repr

/-- The planner's registered model map (`Map<string, ModelDefinition>`),
embedded as an association list looked up by name. -/
abbrev Models := List (String × ModelDefinition)

/-- `Array.from(new Set(xs))` on strings: deduplication keeping the first
occurrence of each element, preserving order. -/
def jsSetDedupAux (seen : List String) : List String → List String
  | [] => []
  | x :: xs => if x ∈ seen then jsSetDedupAux seen xs else x :: jsSetDedupAux (x :: seen) xs

def jsSetDedup (xs : List String) : List String := jsSetDedupAux [] xs

/-- `model.auth !== undefined && !model.auth(ctx)` is the denial condition in
the planner; `evalAuth` is true exactly when access is NOT denied. -/
def evalAuth (model : ModelDefinition) (ctx : QueryContext) : Bool :=
  match model.auth with
  | none => true
  | some rule => rule ctx

/-- The allow-list loop in `planRelationField`: first child whose name is
outside the allow-list, if any (the loop throws on the first violation). -/
def firstOutside (allowed : List String) : List QueryField → Option String
  | [] => none
  | c :: cs => if c.name ∈ allowed then firstOutside allowed cs else some c.name

mutual
/-- `resolveSelections` in planner/index.ts: partition one level of query
fields into a scalar mask and dependent relations, validating against the
model.  Returns additionally the operations pushed to `allOps`, in push
order. -/
def resolveSelections (selections : List QueryField) (model : ModelDefinition)
    (models : Models) (ctx : QueryContext) :
    Except PlanError (List String × List DependentRelation × List ExecutionOp) :=
  match selections with
  | [] => .ok ([], [], [])
  | selection :: rest =>
    match model.fields.lookup selection.name with
    | none =>
      .error ⟨("PlanError: field ") ++ selection.name ++ (" does not exist on model ")
        ++ model.source.path⟩
    | some (.scalar _) =>
      match resolveSelections rest model models ctx with
      | .error e => .error e
      | .ok (scalarMask, dependents, ops) =>
        .ok (selection.name :: scalarMask, dependents, ops)
    | some (.relationField relation allowedSelects) =>
      if selection.children.length = 0 then
        .error ⟨("PlanError: relation field ") ++ selection.name
          ++ (" must have a selection set")⟩
      else
        match planRelationField selection relation allowedSelects models ctx with
        | .error e => .error e
        | .ok (dependent, ops₁) =>
          match resolveSelections rest model models ctx with
          | .error e => .error e
          | .ok (scalarMask, dependents, ops₂) =>
            .ok (scalarMask, dependent :: dependents, ops₁ ++ ops₂)
termination_by 3 * QueryField.sizeList selections + 2
decreasing_by
  all_goals simp only [QueryField.sizeList]
  all_goals omega

/-- `planRelationField` in planner/index.ts: resolve the target model, check
the allow-list, check the target auth rule, recurse, and emit the child
operation (pushed to `allOps` after its own nested operations). -/
def planRelationField (selection : QueryField) (relation : RelationDefinition)
    (allowedSelects : Option (List String)) (models : Models) (ctx : QueryContext) :
    Except PlanError (DependentRelation × List ExecutionOp) :=
  match models.lookup relation.«to» with
  | none =>
    .error ⟨("PlanError: relation target model ") ++ relation.«to» ++ (" is not registered")⟩
  | some targetModel =>
    match allowedSelects with
    | some allowed =>
      match firstOutside allowed selection.children with
      | some badName =>
        .error ⟨("PlanError: field ") ++ badName ++ (" is not selectable through relation ")
          ++ selection.name⟩
      | none => planRelationFieldAuthed selection relation allowedSelects targetModel models ctx
    | none => planRelationFieldAuthed selection relation allowedSelects targetModel models ctx
termination_by 3 * QueryField.size selection + 1
decreasing_by
  all_goals omega

/-- Continuation of `planRelationField` after the allow-list check: auth
check, recursion into the target selection set, field-mask assembly and
operation construction. -/
def planRelationFieldAuthed (selection : QueryField) (relation : RelationDefinition)
    (_allowedSelects : Option (List String)) (targetModel : ModelDefinition)
    (models : Models) (ctx : QueryContext) :
    Except PlanError (DependentRelation × List ExecutionOp) :=
  if evalAuth targetModel ctx = false then
    .error ⟨("PlanError: unauthorized access to relation target ") ++ relation.«to»⟩
  else
    match resolveSelections selection.children targetModel models ctx with
    | .error e => .error e
    | .ok (scalarMask, nestedDependents, ops) =>
      let nestedRelationKeys := nestedDependents.map DependentRelation.foreignKey
      let fieldMask := jsSetDedup (scalarMask ++ nestedRelationKeys)
      let op : ExecutionOp :=
        match relation.type with
        | .one =>
          .getOne targetModel.source.path (("$ref:") ++ relation.«from») fieldMask
            nestedDependents
        | .many =>
          .getMany targetModel.source.path relation.«from» fieldMask nestedDependents
      .ok (⟨selection.name, relation.«from», relation.type, op⟩, ops ++ [op])
termination_by 3 * QueryField.size selection
decreasing_by
  all_goals have h₂ := QueryField.size_eq_children selection
  all_goals omega
end

/-- `planModelSelection` in planner/index.ts: resolve and authorize the
model, resolve the selections, assemble the mask, build the root GetOne. -/
def planModelSelection (modelName : String) (id : String) (selections : List QueryField)
    (models : Models) (ctx : QueryContext) :
    Except PlanError (ExecutionOp × List ExecutionOp) :=
  match models.lookup modelName with
  | none => .error ⟨("PlanError: model ") ++ modelName ++ (" is not registered")⟩
  | some model =>
    if evalAuth model ctx = false then
      .error ⟨("PlanError: unauthorized access to model ") ++ modelName⟩
    else
      match resolveSelections selections model models ctx with
      | .error e => .error e
      | .ok (scalarMask, dependents, ops) =>
        let relationForeignKeys := dependents.map DependentRelation.foreignKey
        let fieldMask := jsSetDedup (scalarMask ++ relationForeignKeys)
        let op : ExecutionOp := .getOne model.source.path id fieldMask dependents
        .ok (op, ops ++ [op])

/-- `buildExecutionPlan` in planner/index.ts. -/
def buildExecutionPlan (queryNode : QueryNode) (models : Models) (ctx : QueryContext) :
    Except PlanError ExecutionPlan :=
  match planModelSelection queryNode.model queryNode.id queryNode.selections models ctx with
  | .error e => .error e
  | .ok (rootOp, allOps) => .ok ⟨rootOp, allOps⟩

/-- `ParseError` in parser/index.ts: message plus the character offset at
which the error occurred. -/
structure ParseError where
  message : String
  position : Nat
deriving DecidableEq, Repr

/-- Token kinds of the lexer in parser/index.ts. -/
inductive TokenKind where
  | word : TokenKind
  | string : TokenKind
  | lbrace : TokenKind
  | rbrace : TokenKind
  | lparen : TokenKind
  | rparen : TokenKind
  | colon : TokenKind
  | eof : TokenKind
deriving DecidableEq, Repr

/-- `Token` in parser/index.ts. -/
structure Token where
  kind : TokenKind
  value : String
  position : Nat
deriving DecidableEq, Repr

/-- The JS `/\s/` test, restricted to the whitespace characters it matches
in ASCII input. -/
def jsWhitespace (c : Char) : Bool :=
  c = ' ' || c = '\t' || c = '\n' || c = '\r' || c = '\x0b' || c = '\x0c'

/-- The JS `/[a-zA-Z_]/` test that begins a bare word. -/
def isWordStart (c : Char) : Bool :=
  ('a' ≤ c && c ≤ 'z') || ('A' ≤ c && c ≤ 'Z') || c = '_'

/-- The JS `/[a-zA-Z0-9_]/` test that continues a bare word. -/
def isWordChar (c : Char) : Bool :=
  ('a' ≤ c && c ≤ 'z') || ('A' ≤ c && c ≤ 'Z') || ('0' ≤ c && c ≤ '9') || c = '_'

theorem length_dropWhile_le {α : Type} (p : α → Bool) (l : List α) :
    (l.dropWhile p).length ≤ l.length := by
  induction l with
  | nil => simp [List.dropWhile]
  | cons a l ih =>
    simp only [List.dropWhile]
    cases p a <;> simp <;> omega

/-- The character loop of `tokenize` in parser/index.ts, carrying the
current offset `i`.  Each branch consumes the characters the source
consumes and records the same start positions. -/
def tokenizeAux (cs : List Char) (i : Nat) : Except ParseError (List Token) :=
  match cs with
  | [] => .ok [⟨.eof, (""), i⟩]
  | c :: rest =>
    if jsWhitespace c || c = ',' then tokenizeAux rest (i + 1)
    else if c = '#' then
      tokenizeAux (rest.dropWhile (fun ch => ch ≠ '\n'))
        (i + 1 + (rest.takeWhile (fun ch => ch ≠ '\n')).length)
    else if c = '{' then
      (tokenizeAux rest (i + 1)).map (fun ts => ⟨.lbrace, ("\x7b"), i⟩ :: ts)
    else if c = '}' then
      (tokenizeAux rest (i + 1)).map (fun ts => ⟨.rbrace, ("\x7d"), i⟩ :: ts)
    else if c = '(' then
      (tokenizeAux rest (i + 1)).map (fun ts => ⟨.lparen, ("("), i⟩ :: ts)
    else if c = ')' then
      (tokenizeAux rest (i + 1)).map (fun ts => ⟨.rparen, (")"), i⟩ :: ts)
    else if c = ':' then
      (tokenizeAux rest (i + 1)).map (fun ts => ⟨.colon, (":"), i⟩ :: ts)
    else if c = '"' then
      let body := rest.takeWhile (fun ch => ch ≠ '"')
      let remainder := rest.dropWhile (fun ch => ch ≠ '"')
      if remainder.isEmpty then .error ⟨("unterminated string literal"), i⟩
      else
        (tokenizeAux remainder.tail (i + 2 + body.length)).map
          (fun ts => ⟨.string, String.mk body, i⟩ :: ts)
    else if isWordStart c then
      let w := rest.takeWhile isWordChar
      (tokenizeAux (rest.dropWhile isWordChar) (i + 1 + w.length)).map
        (fun ts => ⟨.word, String.mk (c :: w), i⟩ :: ts)
    else .error ⟨("unexpected character"), i⟩
termination_by cs.length
decreasing_by
  all_goals simp only [List.length_cons, List.length_tail]
  all_goals
    first
    | omega
    | (have hdw := length_dropWhile_le (fun ch => ch ≠ '\n') rest
       omega)
    | (have hdw := length_dropWhile_le (fun ch => ch ≠ '"') rest
       omega)
    | (have hdw := length_dropWhile_le isWordChar rest
       omega)

/-- `tokenize` in parser/index.ts. -/
def tokenize (input : String) : Except ParseError (List Token) :=
  tokenizeAux input.data 0

/-- `Parser.peek`: the parser never walks past the final `eof` token, so the
empty case is unreachable on `tokenize` output. -/
def peekTok : List Token → Token
  | [] => ⟨.eof, (""), 0⟩
  | t :: _ => t

/-- `Parser.consume(expectedKind)`: take the next token, failing (at the
token's position) when its kind differs.  The returned remainder is
strictly shorter, which drives termination of the recursive descent. -/
def consumeTok (expectedKind : TokenKind) (ts : List Token) :
    Except ParseError { p : Token × List Token // p.2.length < ts.length } :=
  match ts with
  | [] => .error ⟨("unexpected end of tokens"), 0⟩
  | t :: rest =>
    if t.kind = expectedKind then .ok ⟨(t, rest), by simp⟩
    else .error ⟨("unexpected token"), t.position⟩

/-- `Parser.consumeWord(expectedVal)`. -/
def consumeWordVal (expectedVal : String) (ts : List Token) :
    Except ParseError { p : Token × List Token // p.2.length < ts.length } :=
  match consumeTok .word ts with
  | .error e => .error e
  | .ok ⟨(t, rest), h⟩ =>
    if t.value = expectedVal then .ok ⟨(t, rest), h⟩
    else .error ⟨("unexpected word"), t.position⟩

mutual
/-- `Parser.parseField`: a word, optionally followed by a braced field list. -/
def parseField (ts : List Token) :
    Except ParseError { r : QueryField × List Token // r.2.length < ts.length } :=
  match consumeTok .word ts with
  | .error e => .error e
  | .ok ⟨(nameTok, rest), h₁⟩ =>
    if (peekTok rest).kind = .lbrace then
      match consumeTok .lbrace rest with
      | .error e => .error e
      | .ok ⟨(_, rest₂), h₂⟩ =>
        match parseFieldList rest₂ with
        | .error e => .error e
        | .ok ⟨(children, rest₃), h₃⟩ =>
          match consumeTok .rbrace rest₃ with
          | .error e => .error e
          | .ok ⟨(_, rest₄), h₄⟩ =>
            .ok ⟨(QueryField.mk nameTok.value children, rest₄), by simp at *; omega⟩
    else .ok ⟨(QueryField.mk nameTok.value [], rest), h₁⟩
termination_by 3 * ts.length
decreasing_by
  all_goals simp at *
  all_goals omega

/-- The collection loop of `Parser.parseFieldList`: parse fields until the
next token is `}` or end of input. -/
def parseFieldsLoop (ts : List Token) :
    Except ParseError { r : List QueryField × List Token // r.2.length ≤ ts.length } :=
  if (peekTok ts).kind = .rbrace ∨ (peekTok ts).kind = .eof then
    .ok ⟨([], ts), Nat.le_refl _⟩
  else
    match parseField ts with
    | .error e => .error e
    | .ok ⟨(f, rest), h₁⟩ =>
      match parseFieldsLoop rest with
      | .error e => .error e
      | .ok ⟨(fs, rest₂), h₂⟩ => .ok ⟨(f :: fs, rest₂), by simp at *; omega⟩
termination_by 3 * ts.length + 1
decreasing_by
  all_goals simp at *
  all_goals omega

/-- `Parser.parseFieldList`: one or more fields; empty is a syntax error at
the position of the token that ended the (empty) list. -/
def parseFieldList (ts : List Token) :
    Except ParseError { r : List QueryField × List Token // r.2.length ≤ ts.length } :=
  match parseFieldsLoop ts with
  | .error e => .error e
  | .ok ⟨([], rest), _⟩ =>
    .error ⟨("selection set cannot be empty"), (peekTok rest).position⟩
  | .ok ⟨(f :: fs, rest), h⟩ => .ok ⟨(f :: fs, rest), h⟩
termination_by 3 * ts.length + 2
decreasing_by
  all_goals simp at *
  all_goals omega
end

/-- `Parser.parseModelSelection`: `Word ( id : String ) { FieldList }`. -/
def parseModelSelection (ts : List Token) :
    Except ParseError (QueryNode × List Token) :=
  match consumeTok .word ts with
  | .error e => .error e
  | .ok ⟨(modelTok, r₁), _⟩ =>
    match consumeTok .lparen r₁ with
    | .error e => .error e
    | .ok ⟨(_, r₂), _⟩ =>
      match consumeWordVal ("id") r₂ with
      | .error e => .error e
      | .ok ⟨(_, r₃), _⟩ =>
        match consumeTok .colon r₃ with
        | .error e => .error e
        | .ok ⟨(_, r₄), _⟩ =>
          match consumeTok .string r₄ with
          | .error e => .error e
          | .ok ⟨(idTok, r₅), _⟩ =>
            match consumeTok .rparen r₅ with
            | .error e => .error e
            | .ok ⟨(_, r₆), _⟩ =>
              match consumeTok .lbrace r₆ with
              | .error e => .error e
              | .ok ⟨(_, r₇), _⟩ =>
                match parseFieldList r₇ with
                | .error e => .error e
                | .ok ⟨(selections, r₈), _⟩ =>
                  match consumeTok .rbrace r₈ with
                  | .error e => .error e
                  | .ok ⟨(_, r₉), _⟩ =>
                    .ok (⟨modelTok.value, idTok.value, selections⟩, r₉)

/-- The optional leading `query` word at the start of `Parser.parseQuery`
(consuming a word token is taking the tail of the token list). -/
def stripQueryWord (ts : List Token) : List Token :=
  if (peekTok ts).kind = .word ∧ (peekTok ts).value = ("query") then ts.tail else ts

/-- `Parser.parseQuery`: optional leading `query` word, braced model
selection, then end of input (a non-`eof` trailing token is a syntax error
at its position). -/
def parseQueryTokens (ts : List Token) : Except ParseError QueryNode :=
  match consumeTok .lbrace (stripQueryWord ts) with
  | .error e => .error e
  | .ok ⟨(_, r₁), _⟩ =>
    match parseModelSelection r₁ with
    | .error e => .error e
    | .ok (node, r₂) =>
      match consumeTok .rbrace r₂ with
      | .error e => .error e
      | .ok ⟨(_, r₃), _⟩ =>
        if (peekTok r₃).kind ≠ .eof then
          .error ⟨("expected end of query"), (peekTok r₃).position⟩
        else .ok node

/-- `parseQuery` in parser/index.ts: the public parsing entry point. -/
def parseQuery (input : String) : Except ParseError QueryNode :=
  match tokenize input with
  | .error e => .error e
  | .ok tokens => parseQueryTokens tokens

/-- A fetched document (`DocumentSnapshot` in executor/index.ts): id,
existence flag, and the (already field-masked) data record, `undefined`
embedded as `none`. -/
structure DocumentSnapshot where
  id : String
  «exists» : Bool
  data : Option (List (String × Value))

/-- `ExecutionError` in executor/index.ts. -/
structure ExecutionError where
  message : String
deriving DecidableEq, Repr

/-- A failure of an adapter read call (e.g. a store fault): not an
`ExecutionError`, so the executor must let it propagate. -/
structure AdapterFault where
  message : String
deriving DecidableEq, Repr

/-- What `executeplan` can catch or rethrow: an `ExecutionError` thrown by
the core, or any other failure (here: an adapter fault). -/
inductive ExecFailure where
  | execError : ExecutionError → ExecFailure
  | fault : AdapterFault → ExecFailure
deriving DecidableEq, Repr

/-- The `FirestoreAdapter` interface consumed by the executor; each read is
a pure function that may fail (a rejected promise). -/
structure FirestoreAdapter where
  getOne : String → String → List String → Except AdapterFault DocumentSnapshot
  getMany : String → List String → List String → Except AdapterFault (List DocumentSnapshot)

/-- One adapter call issued during execution, recorded in issue order. -/
inductive ReadCall where
  | one : String → String → List String → ReadCall
  | many : String → List String → List String → ReadCall
deriving Repr

/-- `FlareResult` is `Record<string, unknown>`; `FlareResponse` in types.ts.
`data` is `Value.null` for a null result. -/
structure FlareResponse where
  data : Value
  errors : Option (List String)
deriving Repr

/-- JS object property assignment `obj[k] = v`: overwrite in place when the
key exists (keeping its insertion position), append otherwise. -/
def jsInsert (obj : List (String × Value)) (k : String) (v : Value) : List (String × Value) :=
  if (obj.lookup k).isSome then
    obj.map (fun kv => if kv.1 = k then (k, v) else kv)
  else obj ++ [(k, v)]

/-- The prefix `"$ref:"` that marks a deferred id (planner and executor
agree on this string convention). -/
def refMarker : List Char := ("$ref:").data

/-- `resolveId` in executor/index.ts: a literal id passes through; a
`$ref:`-prefixed id is read off the parent document, `null` when the field
is absent or not a string, and an `ExecutionError` when there is no parent
document at all. -/
def resolveId (id : String) (parentDoc : Option (List (String × Value))) :
    Except ExecutionError (Option String) :=
  if id.data.take 5 ≠ refMarker then .ok (some id)
  else
    let fieldName := String.mk (id.data.drop 5)
    match parentDoc with
    | none =>
      .error ⟨("ExecutionError: cannot resolve runtime ref - no parent document available")⟩
    | some doc =>
      match doc.lookup fieldName with
      | some (Value.str v) => .ok (some v)
      | _ => .ok none

/-- The entry filter in `filter((v): v is string => typeof v === "string")`. -/
def stringEntries (vs : List Value) : List String :=
  vs.filterMap (fun v => match v with | Value.str s => some s | _ => none)

/-- The result-assembly loop shared by `executeGetOne` and the per-document
branch of `executeGetMany`: copy every fetched field that is in the mask
and is not consumed as a dependent foreign key, on top of the resolved
dependent values. -/
def assembleResult (dependents : List DependentRelation) (fieldMask : List String)
    (depObj : List (String × Value)) (docData : List (String × Value)) :
    List (String × Value) :=
  let foreignKeys := dependents.map DependentRelation.foreignKey
  docData.foldl
    (fun acc kv =>
      if kv.1 ∉ foreignKeys ∧ kv.1 ∈ fieldMask then jsInsert acc kv.1 kv.2 else acc)
    depObj

/-- The `result[fieldName] = value` loop in `resolveDependents`. -/
def buildDepObj (pairs : List (String × Value)) : List (String × Value) :=
  pairs.foldl (fun acc p => jsInsert acc p.1 p.2) []

mutual
/-- `executeOp` in executor/index.ts, dispatching on the operation kind.
Returns the outcome together with the ordered list of adapter calls
issued (calls are recorded even when a later step fails). -/
def executeOp (adapter : FirestoreAdapter) (op : ExecutionOp)
    (parentDoc : Option (List (String × Value))) :
    Except ExecFailure Value × List ReadCall :=
  match op with
  | .getOne collection idStr fieldMask dependents =>
    match resolveId idStr parentDoc with
    | .error e => (.error (.execError e), [])
    | .ok none => (.ok Value.null, [])
    | .ok (some id) =>
      match adapter.getOne collection id fieldMask with
      | .error f => (.error (.fault f), [.one collection id fieldMask])
      | .ok snapshot =>
        if snapshot.«exists» = false then (.ok Value.null, [.one collection id fieldMask])
        else
          match snapshot.data with
          | none => (.ok Value.null, [.one collection id fieldMask])
          | some docData =>
            match resolveDependentsGo adapter dependents docData with
            | (.error e, calls) => (.error e, .one collection id fieldMask :: calls)
            | (.ok pairs, calls) =>
              let result := assembleResult dependents fieldMask (buildDepObj pairs) docData
              (.ok (Value.obj result), .one collection id fieldMask :: calls)
  | .getMany collection idsFrom fieldMask dependents =>
    match parentDoc with
    | none =>
      (.error (.execError ⟨("ExecutionError: getMany op for collection ") ++ collection
        ++ (" has no parent document")⟩), [])
    | some parent =>
      match parent.lookup idsFrom with
      | some (Value.arr rawIds) =>
        if rawIds.length = 0 then (.ok Value.null, [])
        else
          let ids := stringEntries rawIds
          if ids.length = 0 then (.ok Value.null, [])
          else
            match adapter.getMany collection ids fieldMask with
            | .error f => (.error (.fault f), [.many collection ids fieldMask])
            | .ok snapshots =>
              match executeSnapshots adapter dependents fieldMask
                  (snapshots.filter (fun s => s.«exists»)) with
              | (.error e, calls) => (.error e, .many collection ids fieldMask :: calls)
              | (.ok results, calls) =>
                (.ok (Value.arr (results.filterMap (fun r => r))),
                  .many collection ids fieldMask :: calls)
      | _ => (.ok Value.null, [])
termination_by (ExecutionOp.size op, 0)
decreasing_by
  all_goals simp only [ExecutionOp.size, DependentRelation.size, DependentRelation.sizeList]
  all_goals
    first
    | (apply Prod.Lex.left
       omega)
    | (apply Prod.Lex.right
       omega)

/-- `resolveDependents` in executor/index.ts: execute each dependent
operation against the parent document data (a `Promise.all` in the source,
which preserves the dependents' order), pairing each resolved value with
its output field name. -/
def resolveDependentsGo (adapter : FirestoreAdapter) (dependents : List DependentRelation)
    (docData : List (String × Value)) :
    Except ExecFailure (List (String × Value)) × List ReadCall :=
  match dependents with
  | [] => (.ok [], [])
  | .mk fieldName _ _ op :: rest =>
    match executeOp adapter op (some docData) with
    | (.error e, calls) => (.error e, calls)
    | (.ok value, calls) =>
      match resolveDependentsGo adapter rest docData with
      | (.error e, calls₂) => (.error e, calls ++ calls₂)
      | (.ok pairs, calls₂) => (.ok ((fieldName, value) :: pairs), calls ++ calls₂)
termination_by (DependentRelation.sizeList dependents, 0)
decreasing_by
  all_goals simp only [ExecutionOp.size, DependentRelation.size, DependentRelation.sizeList]
  all_goals
    first
    | (apply Prod.Lex.left
       omega)
    | (apply Prod.Lex.right
       omega)

/-- The per-document branch of `executeGetMany`: process each existing
snapshot like a GetOne result (`Promise.all` over the batch, order
preserved); a snapshot whose data is `undefined` yields `none` and is
dropped by the caller. -/
def executeSnapshots (adapter : FirestoreAdapter) (dependents : List DependentRelation)
    (fieldMask : List String) (snapshots : List DocumentSnapshot) :
    Except ExecFailure (List (Option Value)) × List ReadCall :=
  match snapshots with
  | [] => (.ok [], [])
  | snapshot :: rest =>
    match snapshot.data with
    | none =>
      match executeSnapshots adapter dependents fieldMask rest with
      | (.error e, calls) => (.error e, calls)
      | (.ok results, calls) => (.ok (none :: results), calls)
    | some docData =>
      match resolveDependentsGo adapter dependents docData with
      | (.error e, calls) => (.error e, calls)
      | (.ok pairs, calls) =>
        let result := assembleResult dependents fieldMask (buildDepObj pairs) docData
        match executeSnapshots adapter dependents fieldMask rest with
        | (.error e, calls₂) => (.error e, calls ++ calls₂)
        | (.ok results, calls₂) =>
          (.ok (some (Value.obj result) :: results), calls ++ calls₂)
termination_by (DependentRelation.sizeList dependents, snapshots.length + 1)
decreasing_by
  all_goals simp only [ExecutionOp.size, DependentRelation.size, DependentRelation.sizeList,
    List.length_cons]
  all_goals
    first
    | (apply Prod.Lex.left
       omega)
    | (apply Prod.Lex.right
       omega)
end

/-- `executeplan` in executor/index.ts: run the root operation with no
parent; convert a thrown `ExecutionError` into a `(data: null, errors)`
response; let any other failure propagate. -/
def executeplan (plan : ExecutionPlan) (adapter : FirestoreAdapter) :
    Except AdapterFault FlareResponse :=
  match (executeOp adapter plan.root none).1 with
  | .ok data => .ok ⟨data, none⟩
  | .error (.execError e) => .ok ⟨Value.null, some [e.message]⟩
  | .error (.fault f) => .error f

/-- A failure anywhere in the parse → plan → execute pipeline. -/
inductive PipelineFailure where
  | parse : ParseError → PipelineFailure
  | plan : PlanError → PipelineFailure
  | fault : AdapterFault → PipelineFailure
deriving Repr

/-- `ServerlessApp.execute` in the firebase package (app.ts): parse the
query text, build the plan, execute it; a parse or plan error aborts
before the executor is ever invoked, so no adapter read is issued. -/
def appExecute (query : String) (models : Models) (ctx : QueryContext)
    (adapter : FirestoreAdapter) : Except PipelineFailure FlareResponse :=
  match parseQuery query with
  | .error e => .error (.parse e)
  | .ok queryNode =>
    match buildExecutionPlan queryNode models ctx with
    | .error e => .error (.plan e)
    | .ok plan =>
      match executeplan plan adapter with
      | .error f => .error (.fault f)
      | .ok response => .ok response

/-! ## Properties of `jsSetDedup` -/

theorem mem_jsSetDedupAux (x : String) :
    ∀ (l seen : List String), x ∈ jsSetDedupAux seen l ↔ x ∈ l ∧ x ∉ seen := by
  intro l
  induction l with
  | nil => intro seen; simp [jsSetDedupAux]
  | cons a l ih =>
    intro seen
    by_cases ha : a ∈ seen
    · simp only [jsSetDedupAux, if_pos ha, ih, List.mem_cons]
      constructor
      · rintro ⟨hl, hs⟩
        exact ⟨Or.inr hl, hs⟩
      · rintro ⟨hl | hl, hs⟩
        · exact absurd (hl ▸ ha) hs
        · exact ⟨hl, hs⟩
    · simp only [jsSetDedupAux, if_neg ha, List.mem_cons, ih]
      constructor
      · rintro (rfl | ⟨hl, hs⟩)
        · exact ⟨Or.inl rfl, ha⟩
        · exact ⟨Or.inr hl, fun hx => hs (Or.inr hx)⟩
      · rintro ⟨hxa | hl, hs⟩
        · exact Or.inl hxa
        · by_cases hxa : x = a
          · exact Or.inl hxa
          · exact Or.inr ⟨hl, fun hor => hor.elim hxa hs⟩

theorem mem_jsSetDedup (x : String) (l : List String) :
    x ∈ jsSetDedup l ↔ x ∈ l := by
  simp [jsSetDedup, mem_jsSetDedupAux]

theorem nodup_jsSetDedupAux : ∀ (l seen : List String), (jsSetDedupAux seen l).Nodup := by
  intro l
  induction l with
  | nil => intro seen; simp [jsSetDedupAux]
  | cons a l ih =>
    intro seen
    by_cases ha : a ∈ seen
    · simpa [jsSetDedupAux, if_pos ha] using ih seen
    · simp only [jsSetDedupAux, if_neg ha, List.nodup_cons]
      refine ⟨?_, ih (a :: seen)⟩
      intro hmem
      exact ((mem_jsSetDedupAux a l (a :: seen)).mp hmem).2 (List.mem_cons_self a seen)

theorem nodup_jsSetDedup (l : List String) : (jsSetDedup l).Nodup :=
  nodup_jsSetDedupAux l []

/-! ## The spec-side field-mask formula (C1)

These two definitions follow the words of the specification ("the union of
the node's explicitly requested scalar fields and every foreign-key field
required by its Dependent Relations"), to be compared against the masks
built by the planner code. -/

/-- Spec wording: the node's explicitly requested scalar field names, in
request order. -/
def specScalarFields (model : ModelDefinition) (sels : List QueryField) : List String :=
  sels.filterMap fun s =>
    match model.fields.lookup s.name with
    | some (FieldDefinition.scalar _) => some s.name
    | _ => none

/-- Spec wording: the foreign-key field names of the node's immediate
dependent relations, in request order. -/
def specForeignKeys (model : ModelDefinition) (sels : List QueryField) : List String :=
  sels.filterMap fun s =>
    match model.fields.lookup s.name with
    | some (FieldDefinition.relationField rel _) => some rel.«from»
    | _ => none

/-! ## Planner inversion lemmas -/

theorem planRelationFieldAuthed_ok_inv {sel : QueryField} {rel : RelationDefinition}
    {sl : Option (List String)} {tm : ModelDefinition} {models : Models}
    {ctx : QueryContext} {dep : DependentRelation} {ops : List ExecutionOp}
    (h : planRelationFieldAuthed sel rel sl tm models ctx = .ok (dep, ops)) :
    ∃ sc nd subops,
      resolveSelections sel.children tm models ctx = .ok (sc, nd, subops) ∧
      dep.fieldName = sel.name ∧ dep.foreignKey = rel.«from» ∧
      dep.relationType = rel.type ∧
      dep.op.fieldMask = jsSetDedup (sc ++ nd.map DependentRelation.foreignKey) ∧
      dep.op.dependents = nd ∧
      dep.op.collection = tm.source.path ∧
      ops = subops ++ [dep.op] ∧
      evalAuth tm ctx = true ∧
      (rel.type = .one →
        dep.op = .getOne tm.source.path (("$ref:") ++ rel.«from») dep.op.fieldMask nd) ∧
      (rel.type = .many →
        dep.op = .getMany tm.source.path rel.«from» dep.op.fieldMask nd) := by
  rw [planRelationFieldAuthed] at h
  split at h
  · exact absurd h (by simp)
  · rename_i hauth
    split at h
    · exact absurd h (by simp)
    · rename_i sc nd subops heq
      cases rel_ty : rel.type <;>
        simp only [rel_ty] at h <;>
        cases h <;>
        refine ⟨sc, nd, subops, heq, rfl, rfl, by simp [DependentRelation.relationType, rel_ty],
          ?_, ?_, ?_, ?_, by simpa using hauth, ?_, ?_⟩ <;>
        simp [DependentRelation.op, ExecutionOp.fieldMask, ExecutionOp.dependents,
          ExecutionOp.collection, rel_ty]

theorem planRelationField_ok_inv {sel : QueryField} {rel : RelationDefinition}
    {sl : Option (List String)} {models : Models} {ctx : QueryContext}
    {dep : DependentRelation} {ops : List ExecutionOp}
    (h : planRelationField sel rel sl models ctx = .ok (dep, ops)) :
    ∃ tm, models.lookup rel.«to» = some tm ∧
      (∀ allowed, sl = some allowed → firstOutside allowed sel.children = none) ∧
      planRelationFieldAuthed sel rel sl tm models ctx = .ok (dep, ops) := by
  rw [planRelationField] at h
  split at h
  · exact absurd h (by simp)
  · rename_i tm htm
    refine ⟨tm, htm, ?_⟩
    cases sl with
    | none =>
      refine ⟨(fun a ha => by cases ha), ?_⟩
      simpa using h
    | some allowed =>
      simp only [] at h
      split at h
      · exact absurd h (by simp)
      · rename_i hfo
        exact ⟨(fun a ha => by cases ha; exact hfo), h⟩

theorem resolveSelections_ok_spec :
    ∀ (sels : List QueryField) (model : ModelDefinition) (models : Models)
      (ctx : QueryContext) (sc : List String) (deps : List DependentRelation)
      (ops : List ExecutionOp),
      resolveSelections sels model models ctx = .ok (sc, deps, ops) →
      sc = specScalarFields model sels ∧
      deps.map DependentRelation.foreignKey = specForeignKeys model sels ∧
      ∀ s ∈ sels, (model.fields.lookup s.name).isSome := by
  intro sels
  induction sels with
  | nil =>
    intro model models ctx sc deps ops h
    rw [resolveSelections] at h
    simp only [Except.ok.injEq, Prod.mk.injEq] at h
    obtain ⟨h₁, h₂, _⟩ := h
    subst h₁; subst h₂
    simp [specScalarFields, specForeignKeys]
  | cons sel rest ih =>
    intro model models ctx sc deps ops h
    rw [resolveSelections] at h
    split at h
    · exact absurd h (by simp)
    · rename_i st hlook
      split at h
      · exact absurd h (by simp)
      · rename_i sc' deps' ops' heq
        simp only [Except.ok.injEq, Prod.mk.injEq] at h
        obtain ⟨h₁, h₂, _⟩ := h
        obtain ⟨ihs, ihf, ihm⟩ := ih model models ctx sc' deps' ops' heq
        subst h₁; subst h₂
        refine ⟨?_, ?_, ?_⟩
        · simp [specScalarFields, List.filterMap_cons, hlook, ihs.symm]
          simp [specScalarFields] at ihs
          exact ihs
        · simp [specForeignKeys, List.filterMap_cons, hlook]
          simp [specForeignKeys] at ihf
          exact ihf
        · intro s hs
          rcases List.mem_cons.mp hs with h | h
          · subst h; simp [hlook]
          · exact ihm s h
    · rename_i rel sl hlook
      split at h
      · exact absurd h (by simp)
      · rename_i hlen
        split at h
        · exact absurd h (by simp)
        · rename_i dep ops₁ hprf
          split at h
          · exact absurd h (by simp)
          · rename_i sc' deps' ops₂ heq
            simp only [Except.ok.injEq, Prod.mk.injEq] at h
            obtain ⟨h₁, h₂, _⟩ := h
            obtain ⟨ihs, ihf, ihm⟩ := ih model models ctx sc' deps' ops₂ heq
            obtain ⟨tm, _, _, hauthed⟩ := planRelationField_ok_inv hprf
            obtain ⟨_, _, _, _, hfn, hfk, _⟩ := planRelationFieldAuthed_ok_inv hauthed
            subst h₁; subst h₂
            refine ⟨?_, ?_, ?_⟩
            · simp [specScalarFields, List.filterMap_cons, hlook]
              simp [specScalarFields] at ihs
              exact ihs
            · simp [specForeignKeys, List.filterMap_cons, hlook, hfk]
              simp [specForeignKeys] at ihf
              exact ihf
            · intro s hs
              rcases List.mem_cons.mp hs with h | h
              · subst h; simp [hlook]
              · exact ihm s h

/-- Provenance of an operation: it was emitted by some successful
`planRelationField` call under the same model map and context. -/
def OpFromRelation (models : Models) (ctx : QueryContext) (o : ExecutionOp) : Prop :=
  ∃ sel rel sl dep ops,
    planRelationField sel rel sl models ctx = .ok (dep, ops) ∧ dep.op = o

theorem QueryField.one_le_sizeList (sels : List QueryField) : 1 ≤ QueryField.sizeList sels := by
  cases sels <;> simp [QueryField.sizeList] <;> omega

theorem QueryField.one_le_size (f : QueryField) : 1 ≤ f.size := by
  cases f with
  | mk n c => simp [QueryField.size]

theorem ops_prov (n : Nat) :
    (∀ (sels : List QueryField) (model : ModelDefinition) (models : Models)
       (ctx : QueryContext) (sc : List String) (deps : List DependentRelation)
       (ops : List ExecutionOp), QueryField.sizeList sels ≤ n →
       resolveSelections sels model models ctx = .ok (sc, deps, ops) →
       ∀ o ∈ ops, OpFromRelation models ctx o) ∧
    (∀ (sel : QueryField) (rel : RelationDefinition) (sl : Option (List String))
       (models : Models) (ctx : QueryContext) (dep : DependentRelation)
       (ops : List ExecutionOp), QueryField.size sel ≤ n →
       planRelationField sel rel sl models ctx = .ok (dep, ops) →
       ∀ o ∈ ops, OpFromRelation models ctx o) := by
  induction n with
  | zero =>
    constructor
    · intro sels _ _ _ _ _ _ hn
      exact absurd hn (by have := QueryField.one_le_sizeList sels; omega)
    · intro sel _ _ _ _ _ _ hn
      exact absurd hn (by have := QueryField.one_le_size sel; omega)
  | succ n ih =>
    constructor
    · intro sels model models ctx sc deps ops hn h
      cases sels with
      | nil =>
        rw [resolveSelections] at h
        simp only [Except.ok.injEq, Prod.mk.injEq] at h
        obtain ⟨_, _, h₃⟩ := h
        subst h₃
        intro o ho
        exact absurd ho (by simp)
      | cons sel rest =>
        have hsz : QueryField.sizeList (sel :: rest) = 1 + sel.size + QueryField.sizeList rest :=
          rfl
        have hsel := QueryField.one_le_size sel
        have hrest := QueryField.one_le_sizeList rest
        rw [resolveSelections] at h
        split at h
        · exact absurd h (by simp)
        · rename_i st hlook
          split at h
          · exact absurd h (by simp)
          · rename_i sc' deps' ops' heq
            simp only [Except.ok.injEq, Prod.mk.injEq] at h
            obtain ⟨_, _, h₃⟩ := h
            subst h₃
            exact ih.1 rest model models ctx sc' deps' ops' (by omega) heq
        · rename_i rel sl hlook
          split at h
          · exact absurd h (by simp)
          · rename_i hlen
            split at h
            · exact absurd h (by simp)
            · rename_i dep ops₁ hprf
              split at h
              · exact absurd h (by simp)
              · rename_i sc' deps' ops₂ heq
                simp only [Except.ok.injEq, Prod.mk.injEq] at h
                obtain ⟨_, _, h₃⟩ := h
                subst h₃
                intro o ho
                rcases List.mem_append.mp ho with hmem | hmem
                · exact ih.2 sel rel sl models ctx dep ops₁ (by omega) hprf o hmem
                · exact ih.1 rest model models ctx sc' deps' ops₂ (by omega) heq o hmem
    · intro sel rel sl models ctx dep ops hn h
      obtain ⟨tm, htm, hal, hauthed⟩ := planRelationField_ok_inv h
      obtain ⟨sc, nd, subops, hres, _, _, _, _, _, _, hops, _⟩ :=
        planRelationFieldAuthed_ok_inv hauthed
      subst hops
      have hsz := QueryField.size_eq_children sel
      intro o ho
      rcases List.mem_append.mp ho with hmem | hmem
      · exact ih.1 sel.children tm models ctx sc nd subops (by omega) hres o hmem
      · rcases List.mem_singleton.mp hmem with rfl
        exact ⟨sel, rel, sl, dep, _, h, rfl⟩

theorem planModelSelection_ok_inv {modelName id : String} {sels : List QueryField}
    {models : Models} {ctx : QueryContext} {op : ExecutionOp} {allOps : List ExecutionOp}
    (h : planModelSelection modelName id sels models ctx = .ok (op, allOps)) :
    ∃ model sc deps ops, models.lookup modelName = some model ∧
      evalAuth model ctx = true ∧
      resolveSelections sels model models ctx = .ok (sc, deps, ops) ∧
      op = .getOne model.source.path id
        (jsSetDedup (sc ++ deps.map DependentRelation.foreignKey)) deps ∧
      allOps = ops ++ [op] := by
  rw [planModelSelection] at h
  split at h
  · exact absurd h (by simp)
  · rename_i model hm
    split at h
    · exact absurd h (by simp)
    · rename_i hauth
      split at h
      · exact absurd h (by simp)
      · rename_i sc deps ops heq
        simp only [Except.ok.injEq, Prod.mk.injEq] at h
        obtain ⟨h₁, h₂⟩ := h
        exact ⟨model, sc, deps, ops, hm, by simpa using hauth, heq, h₁.symm,
          by rw [← h₂, h₁]⟩

theorem buildExecutionPlan_ok_inv {queryNode : QueryNode} {models : Models}
    {ctx : QueryContext} {plan : ExecutionPlan}
    (h : buildExecutionPlan queryNode models ctx = .ok plan) :
    planModelSelection queryNode.model queryNode.id queryNode.selections models ctx
      = .ok (plan.root, plan.ops) := by
  rw [buildExecutionPlan] at h
  split at h
  · exact absurd h (by simp)
  · rename_i rootOp allOps heq
    simp only [Except.ok.injEq] at h
    rw [heq, ← h]

/-- C1.  For every query that plans successfully, the field mask of every
Execution Operation in the plan (root and nested) equals the deduplicated
union of that node's explicitly requested scalar field names and the
foreign-key field names of its immediate Dependent Relations; no field
outside that union ever appears in any mask.  Conjunct 1 states it for the
root operation, conjunct 2 for every relation operation (every non-root
operation in a plan is emitted by a successful `planRelationField` call),
and conjunct 3 shows each operation in the plan's flat list is the root or
such a relation operation. -/
theorem fieldMask_is_dedup_union :
    (∀ (queryNode : QueryNode) (models : Models) (ctx : QueryContext)
        (plan : ExecutionPlan) (model : ModelDefinition),
      buildExecutionPlan queryNode models ctx = .ok plan →
      models.lookup queryNode.model = some model →
      plan.root.fieldMask =
        jsSetDedup (specScalarFields model queryNode.selections
          ++ specForeignKeys model queryNode.selections) ∧
      plan.root.fieldMask.Nodup ∧
      (∀ f, f ∈ plan.root.fieldMask ↔
        f ∈ specScalarFields model queryNode.selections ∨
        f ∈ specForeignKeys model queryNode.selections)) ∧
    (∀ (sel : QueryField) (rel : RelationDefinition) (sl : Option (List String))
        (models : Models) (ctx : QueryContext) (dep : DependentRelation)
        (ops : List ExecutionOp) (tm : ModelDefinition),
      planRelationField sel rel sl models ctx = .ok (dep, ops) →
      models.lookup rel.«to» = some tm →
      dep.op.fieldMask =
        jsSetDedup (specScalarFields tm sel.children ++ specForeignKeys tm sel.children) ∧
      dep.op.fieldMask.Nodup ∧
      (∀ f, f ∈ dep.op.fieldMask ↔
        f ∈ specScalarFields tm sel.children ∨ f ∈ specForeignKeys tm sel.children)) ∧
    (∀ (queryNode : QueryNode) (models : Models) (ctx : QueryContext)
        (plan : ExecutionPlan),
      buildExecutionPlan queryNode models ctx = .ok plan →
      ∀ o ∈ plan.ops, o = plan.root ∨ OpFromRelation models ctx o) := by
  refine ⟨?_, ?_, ?_⟩
  · intro queryNode models ctx plan model hplan hm
    obtain ⟨model', sc, deps, ops, hm', hauth, hres, hop, hops⟩ :=
      planModelSelection_ok_inv (buildExecutionPlan_ok_inv hplan)
    rw [hm'] at hm
    cases hm
    obtain ⟨hsc, hfk, _⟩ := resolveSelections_ok_spec _ _ _ _ _ _ _ hres
    subst hsc
    rw [hop]
    simp only [ExecutionOp.fieldMask]
    refine ⟨by rw [hfk], by rw [hfk]; exact nodup_jsSetDedup _, ?_⟩
    intro f
    rw [hfk, mem_jsSetDedup, List.mem_append]
  · intro sel rel sl models ctx dep ops tm h htm
    obtain ⟨tm', htm', _, hauthed⟩ := planRelationField_ok_inv h
    rw [htm'] at htm
    cases htm
    obtain ⟨sc, nd, subops, hres, _, _, _, hmask, hdeps, _, _, _⟩ :=
      planRelationFieldAuthed_ok_inv hauthed
    obtain ⟨hsc, hfk, _⟩ := resolveSelections_ok_spec _ _ _ _ _ _ _ hres
    subst hsc
    rw [hmask]
    refine ⟨by rw [hfk], nodup_jsSetDedup _, ?_⟩
    intro f
    rw [hfk, mem_jsSetDedup, List.mem_append]
  · intro queryNode models ctx plan hplan
    obtain ⟨model, sc, deps, ops, hm, hauth, hres, hop, hops⟩ :=
      planModelSelection_ok_inv (buildExecutionPlan_ok_inv hplan)
    intro o ho
    rw [hops] at ho
    rcases List.mem_append.mp ho with hmem | hmem
    · exact Or.inr ((ops_prov (QueryField.sizeList queryNode.selections)).1 _ _ _ _ _ _ _
        (Nat.le_refl _) hres o hmem)
    · rcases List.mem_singleton.mp hmem with rfl
      exact Or.inl rfl

/-! ## Concrete fixtures used by witnesses and counterexamples -/

/-- Fixture: the Event model of the integration scenario, with
`organizerId` both selectable as a scalar and used as the foreign key of
the `organizer` relation. -/
def wEventModel : ModelDefinition :=
  ⟨⟨("events")⟩,
   [(("title"), .scalar .string),
    (("organizerId"), .scalar .string),
    (("participants"), .relationField ⟨("rsvpUserIds"), ("User"), .many⟩
       (some [("name"), ("email")])),
    (("organizer"), .relationField ⟨("organizerId"), ("User"), .one⟩ none)], none⟩

/-- Fixture: the User model. -/
def wUserModel : ModelDefinition :=
  ⟨⟨("users")⟩,
   [(("name"), .scalar .string), (("email"), .scalar .string),
    (("bio"), .scalar .string)], none⟩

def wModels : Models := [(("Event"), wEventModel), (("User"), wUserModel)]

def wCtx : QueryContext := ⟨some ("u1"), none⟩

/-- Fixture query: title and organizerId scalars, a many-relation and a
one-relation. -/
def wNode : QueryNode :=
  ⟨("Event"), ("event_1"),
   [QueryField.mk ("title") [],
    QueryField.mk ("organizerId") [],
    QueryField.mk ("participants") [QueryField.mk ("name") []],
    QueryField.mk ("organizer") [QueryField.mk ("name") [], QueryField.mk ("bio") []]]⟩

def wRootOp : ExecutionOp :=
  .getOne ("events") ("event_1") [("title"), ("organizerId"), ("rsvpUserIds")]
    [.mk ("participants") ("rsvpUserIds") .many
       (.getMany ("users") ("rsvpUserIds") [("name")] []),
     .mk ("organizer") ("organizerId") .one
       (.getOne ("users") ("$ref:organizerId") [("name"), ("bio")] [])]

/-- The plan the planner produces for `wNode` (checked by `rfl`). -/
def wPlan : ExecutionPlan :=
  ⟨wRootOp,
   [.getMany ("users") ("rsvpUserIds") [("name")] [],
    .getOne ("users") ("$ref:organizerId") [("name"), ("bio")] [],
    wRootOp]⟩

unseal resolveSelections planRelationField planRelationFieldAuthed in
theorem fieldMask_witness :
    wPlan.root.fieldMask =
      jsSetDedup (specScalarFields wEventModel wNode.selections
        ++ specForeignKeys wEventModel wNode.selections) ∧
    wPlan.root.fieldMask.Nodup ∧
    (∀ f, f ∈ wPlan.root.fieldMask ↔
      f ∈ specScalarFields wEventModel wNode.selections ∨
      f ∈ specForeignKeys wEventModel wNode.selections) :=
  fieldMask_is_dedup_union.1 wNode wModels wCtx wPlan wEventModel (by rfl) (by rfl)

/-! ## Authorization denial (C2) -/

/-- Somewhere in this selection level (or deeper along relation children),
a traversed relation's target model denies the context. -/
inductive DeniedAt (models : Models) (ctx : QueryContext) :
    ModelDefinition → List QueryField → Prop where
  | here (model : ModelDefinition) (sel : QueryField) (rest : List QueryField)
      (rel : RelationDefinition) (sl : Option (List String)) (tm : ModelDefinition) :
      model.fields.lookup sel.name = some (.relationField rel sl) →
      models.lookup rel.«to» = some tm →
      evalAuth tm ctx = false →
      DeniedAt models ctx model (sel :: rest)
  | deeper (model : ModelDefinition) (sel : QueryField) (rest : List QueryField)
      (rel : RelationDefinition) (sl : Option (List String)) (tm : ModelDefinition) :
      model.fields.lookup sel.name = some (.relationField rel sl) →
      models.lookup rel.«to» = some tm →
      DeniedAt models ctx tm sel.children →
      DeniedAt models ctx model (sel :: rest)
  | skip (model : ModelDefinition) (sel : QueryField) (rest : List QueryField) :
      DeniedAt models ctx model rest →
      DeniedAt models ctx model (sel :: rest)

theorem planRelationFieldAuthed_denied {sel : QueryField} {rel : RelationDefinition}
    {sl : Option (List String)} {tm : ModelDefinition} {models : Models}
    {ctx : QueryContext}
    (h : evalAuth tm ctx = false ∨ ∃ e, resolveSelections sel.children tm models ctx = .error e) :
    ∃ e, planRelationFieldAuthed sel rel sl tm models ctx = .error e := by
  rw [planRelationFieldAuthed]
  by_cases hauth : evalAuth tm ctx = false
  · exact ⟨_, by rw [if_pos hauth]⟩
  · rcases h with h | ⟨e, he⟩
    · exact absurd h hauth
    · rw [if_neg hauth, he]
      exact ⟨e, rfl⟩

theorem planRelationField_denied {sel : QueryField} {rel : RelationDefinition}
    {sl : Option (List String)} {tm : ModelDefinition} {models : Models}
    {ctx : QueryContext} (htm : models.lookup rel.«to» = some tm)
    (h : evalAuth tm ctx = false ∨ ∃ e, resolveSelections sel.children tm models ctx = .error e) :
    ∃ e, planRelationField sel rel sl models ctx = .error e := by
  rw [planRelationField, htm]
  cases sl with
  | none =>
    simpa using planRelationFieldAuthed_denied h
  | some allowed =>
    simp only []
    cases hfo : firstOutside allowed sel.children with
    | some bad => exact ⟨_, rfl⟩
    | none => simpa using planRelationFieldAuthed_denied h

theorem resolveSelections_denied {models : Models} {ctx : QueryContext}
    {model : ModelDefinition} {sels : List QueryField}
    (hd : DeniedAt models ctx model sels) :
    ∃ e, resolveSelections sels model models ctx = .error e := by
  induction hd with
  | here model sel rest rel sl tm hf htm hauth =>
    rw [resolveSelections, hf]
    by_cases hlen : sel.children.length = 0
    · simp [hlen]
    · obtain ⟨e, he⟩ := @planRelationField_denied sel rel sl tm models ctx htm (Or.inl hauth)
      simp [hlen, he]
  | deeper model sel rest rel sl tm hf htm hdeep ih =>
    rw [resolveSelections, hf]
    by_cases hlen : sel.children.length = 0
    · simp [hlen]
    · obtain ⟨e, he⟩ := @planRelationField_denied sel rel sl tm models ctx htm (Or.inr ih)
      simp [hlen, he]
  | skip model sel rest hrest ih =>
    rw [resolveSelections]
    obtain ⟨e, he⟩ := ih
    cases hf : model.fields.lookup sel.name with
    | none => exact ⟨_, rfl⟩
    | some fd =>
      cases fd with
      | scalar st => simp [he]
      | relationField rel sl =>
        by_cases hlen : sel.children.length = 0
        · simp [hlen]
        · cases hprf : planRelationField sel rel sl models ctx with
          | error e' => simp [hlen, hprf]
          | ok res => simp [hlen, hprf, he]

/-- C2.  If the Auth Rule of the root model, or of any traversed relation's
target model (`DeniedAt`), evaluates to false on the request context, then
`buildExecutionPlan` fails with a Plan Error; consequently the pipeline
(`appExecute`) rejects the request at the planning stage for every adapter,
so the executor is never invoked and no adapter read is ever issued. -/
theorem authDenial_aborts_planning :
    ∀ (queryNode : QueryNode) (models : Models) (ctx : QueryContext)
      (model : ModelDefinition),
      models.lookup queryNode.model = some model →
      (evalAuth model ctx = false ∨ DeniedAt models ctx model queryNode.selections) →
      ∃ e, buildExecutionPlan queryNode models ctx = .error e ∧
        ∀ (input : String) (adapter : FirestoreAdapter),
          parseQuery input = .ok queryNode →
          appExecute input models ctx adapter = .error (.plan e) := by
  intro queryNode models ctx model hm hden
  have hplan : ∃ e, buildExecutionPlan queryNode models ctx = .error e := by
    rw [buildExecutionPlan, planModelSelection, hm]
    by_cases hauth : evalAuth model ctx = false
    · exact ⟨⟨("PlanError: unauthorized access to model ") ++ queryNode.model⟩,
        by simp [hauth]⟩
    · rcases hden with hden | hden
      · exact absurd hden hauth
      · obtain ⟨e, he⟩ := resolveSelections_denied hden
        exact ⟨e, by simp [hauth, he]⟩
  obtain ⟨e, he⟩ := hplan
  refine ⟨e, he, ?_⟩
  intro input adapter hin
  simp [appExecute, hin, he]

/-- Fixture: a User model whose auth rule denies every context. -/
def dUserModel : ModelDefinition :=
  ⟨⟨("users")⟩, [(("name"), .scalar .string)], some (fun _ => false)⟩

def dModels : Models := [(("User"), dUserModel)]

def dNode : QueryNode := ⟨("User"), ("u1"), [QueryField.mk ("name") []]⟩

theorem authDenial_witness :
    ∃ e, buildExecutionPlan dNode dModels wCtx = Except.error e ∧
      ∀ (input : String) (adapter : FirestoreAdapter),
        parseQuery input = .ok dNode →
        appExecute input dModels wCtx adapter = .error (.plan e) :=
  authDenial_aborts_planning dNode dModels wCtx dUserModel (by rfl) (Or.inl (by rfl))

/-! ## Allow-lists (C3) -/

theorem firstOutside_eq_none_iff (allowed : List String) :
    ∀ cs : List QueryField,
      firstOutside allowed cs = none ↔ ∀ c ∈ cs, c.name ∈ allowed := by
  intro cs
  induction cs with
  | nil => simp [firstOutside]
  | cons c cs ih =>
    rw [firstOutside]
    by_cases hc : c.name ∈ allowed
    · rw [if_pos hc, ih]
      constructor
      · intro hall d hd
        rcases List.mem_cons.mp hd with rfl | hd
        · exact hc
        · exact hall d hd
      · intro hall d hd
        exact hall d (List.mem_cons_of_mem _ hd)
    · rw [if_neg hc]
      constructor
      · intro h
        exact absurd h (by simp)
      · intro hall
        exact absurd (hall c (List.mem_cons_self _ _)) hc

theorem resolveSelections_missing_field {models : Models} {ctx : QueryContext} :
    ∀ (sels : List QueryField) (model : ModelDefinition) (s : QueryField),
      s ∈ sels → model.fields.lookup s.name = none →
      ∃ e, resolveSelections sels model models ctx = .error e := by
  intro sels
  induction sels with
  | nil =>
    intro model s hs
    exact absurd hs (by simp)
  | cons sel rest ih =>
    intro model s hs hnone
    rcases List.mem_cons.mp hs with rfl | hs
    · rw [resolveSelections, hnone]
      exact ⟨_, rfl⟩
    · obtain ⟨e, he⟩ := ih model s hs hnone
      rw [resolveSelections]
      cases hf : model.fields.lookup sel.name with
      | none => exact ⟨_, rfl⟩
      | some fd =>
        cases fd with
        | scalar st => simp [he]
        | relationField rel sl =>
          by_cases hlen : sel.children.length = 0
          · simp [hlen]
          · cases hprf : planRelationField sel rel sl models ctx with
            | error e₂ => simp [hlen, hprf]
            | ok res => simp [hlen, hprf, he]

/-- C3.  A relation selection with a select allow-list rejects, at plan
time, any child field outside the allow-list (conjunct 1); on success the
fields a relation exposes lie in the intersection of the target model
field set and the allow-list when present (conjunct 2); and without an
allow-list an unknown target field is still a Plan Error (conjunct 3). -/
theorem allowList_bounds_relation_fields :
    (∀ (sel : QueryField) (rel : RelationDefinition) (allowed : List String)
        (models : Models) (ctx : QueryContext),
      (∃ child ∈ sel.children, child.name ∉ allowed) →
      ∃ e, planRelationField sel rel (some allowed) models ctx = .error e) ∧
    (∀ (sel : QueryField) (rel : RelationDefinition) (sl : Option (List String))
        (models : Models) (ctx : QueryContext) (dep : DependentRelation)
        (ops : List ExecutionOp),
      planRelationField sel rel sl models ctx = .ok (dep, ops) →
      ∃ tm, models.lookup rel.«to» = some tm ∧
        ∀ child ∈ sel.children, (tm.fields.lookup child.name).isSome ∧
          ∀ allowed, sl = some allowed → child.name ∈ allowed) ∧
    (∀ (sel : QueryField) (rel : RelationDefinition) (models : Models)
        (ctx : QueryContext) (tm : ModelDefinition) (child : QueryField),
      models.lookup rel.«to» = some tm →
      child ∈ sel.children →
      tm.fields.lookup child.name = none →
      ∃ e, planRelationField sel rel none models ctx = .error e) := by
  refine ⟨?_, ?_, ?_⟩
  · intro sel rel allowed models ctx hviol
    rw [planRelationField]
    cases hm : models.lookup rel.«to» with
    | none => exact ⟨_, rfl⟩
    | some tm =>
      simp only []
      cases hfo : firstOutside allowed sel.children with
      | some bad => exact ⟨_, rfl⟩
      | none =>
        obtain ⟨child, hc, hout⟩ := hviol
        exact absurd (((firstOutside_eq_none_iff allowed sel.children).mp hfo) child hc) hout
  · intro sel rel sl models ctx dep ops h
    obtain ⟨tm, htm, hal, hauthed⟩ := planRelationField_ok_inv h
    obtain ⟨sc, nd, subops, hres, _⟩ := planRelationFieldAuthed_ok_inv hauthed
    obtain ⟨_, _, hmem⟩ := resolveSelections_ok_spec _ _ _ _ _ _ _ hres
    refine ⟨tm, htm, ?_⟩
    intro child hc
    refine ⟨hmem child hc, ?_⟩
    intro allowed hsl
    exact ((firstOutside_eq_none_iff allowed sel.children).mp (hal allowed hsl)) child hc
  · intro sel rel models ctx tm child htm hc hnone
    rw [planRelationField, htm]
    simp only []
    by_cases hauth : evalAuth tm ctx = false
    · exact ⟨_, by rw [planRelationFieldAuthed, if_pos hauth]⟩
    · obtain ⟨e, he⟩ := resolveSelections_missing_field sel.children tm child hc hnone
      exact ⟨e, by rw [planRelationFieldAuthed, if_neg hauth, he]⟩

unseal resolveSelections planRelationField planRelationFieldAuthed in
theorem allowList_witness :
    (∃ e, planRelationField (QueryField.mk ("participants") [QueryField.mk ("bio") []])
        ⟨("rsvpUserIds"), ("User"), .many⟩ (some [("name"), ("email")]) wModels wCtx
        = Except.error e) ∧
    (∃ tm, wModels.lookup ("User") = some tm ∧
      ∀ child ∈ [QueryField.mk ("name") []], (tm.fields.lookup child.name).isSome ∧
        ∀ allowed, (some [("name"), ("email")] : Option (List String)) = some allowed →
          child.name ∈ allowed) ∧
    (∃ e, planRelationField (QueryField.mk ("organizer") [QueryField.mk ("missing") []])
        ⟨("organizerId"), ("User"), .one⟩ none wModels wCtx = Except.error e) := by
  refine ⟨?_, ?_, ?_⟩
  · exact allowList_bounds_relation_fields.1
      (QueryField.mk ("participants") [QueryField.mk ("bio") []])
      ⟨("rsvpUserIds"), ("User"), .many⟩ [("name"), ("email")] wModels wCtx
      ⟨QueryField.mk ("bio") [], by simp [QueryField.children], by simp [QueryField.name]⟩
  · exact allowList_bounds_relation_fields.2.1
      (QueryField.mk ("participants") [QueryField.mk ("name") []])
      ⟨("rsvpUserIds"), ("User"), .many⟩ (some [("name"), ("email")]) wModels wCtx
      (.mk ("participants") ("rsvpUserIds") .many
        (.getMany ("users") ("rsvpUserIds") [("name")] []))
      [.getMany ("users") ("rsvpUserIds") [("name")] []] (by rfl)
  · exact allowList_bounds_relation_fields.2.2
      (QueryField.mk ("organizer") [QueryField.mk ("missing") []])
      ⟨("organizerId"), ("User"), .one⟩ wModels wCtx wUserModel
      (QueryField.mk ("missing") []) (by rfl) (by simp [QueryField.children]) (by rfl)


/-! ## Root id semantics (C4) -/

theorem executeOp_getOne_head {adapter : FirestoreAdapter} {c i : String}
    {mask : List String} {deps : List DependentRelation}
    {parent : Option (List (String × Value))} {i₂ : String}
    (h : resolveId i parent = .ok (some i₂)) :
    ((executeOp adapter (.getOne c i mask deps) parent).2).head? =
      some (.one c i₂ mask) := by
  simp only [executeOp]
  rw [h]
  cases hAd : adapter.getOne c i₂ mask with
  | error f => simp [hAd]
  | ok snap =>
    by_cases hex : snap.«exists» = false
    · simp [hAd, hex]
    · cases hdata : snap.data with
      | none => simp [hAd, hex, hdata]
      | some docData =>
        cases hdep : resolveDependentsGo adapter deps docData with
        | mk fst snd => cases fst <;> simp [hAd, hex, hdata, hdep]

/-- C4 (amended).  For every successfully planned query the root operation
id is the literal id taken verbatim from the query; and provided that
literal does not begin with the reserved `$ref:` marker, execution treats
it as a literal (never as a deferred parent-field reference) and the first
adapter call issued by the root operation is the single-document read with
exactly that id.  (An id that does begin with `$ref:` is instead treated
as a deferred reference — see the counterexample.) -/
theorem rootId_literal :
    ∀ (queryNode : QueryNode) (models : Models) (ctx : QueryContext)
      (plan : ExecutionPlan),
      buildExecutionPlan queryNode models ctx = .ok plan →
      plan.root.id = some queryNode.id ∧
      (queryNode.id.data.take 5 ≠ refMarker →
        (∀ parentDoc, resolveId queryNode.id parentDoc = .ok (some queryNode.id)) ∧
        ∀ adapter, ((executeOp adapter plan.root none).2).head? =
          some (.one plan.root.collection queryNode.id plan.root.fieldMask)) := by
  intro queryNode models ctx plan hplan
  obtain ⟨model, sc, deps, ops, hm, hauth, hres, hop, hops⟩ :=
    planModelSelection_ok_inv (buildExecutionPlan_ok_inv hplan)
  have hid : plan.root.id = some queryNode.id := by
    rw [hop]; rfl
  refine ⟨hid, ?_⟩
  intro href
  have hresolve : ∀ parentDoc, resolveId queryNode.id parentDoc = .ok (some queryNode.id) := by
    intro parentDoc
    rw [resolveId, if_pos href]
  refine ⟨hresolve, ?_⟩
  intro adapter
  rw [hop]
  simpa [ExecutionOp.collection, ExecutionOp.fieldMask] using
    @executeOp_getOne_head adapter _ _ _ deps none _ (hresolve none)

/-- Fixture for the C4 counterexample: a query whose literal id happens to
start with the `$ref:` marker. -/
def cNode : QueryNode := ⟨("User"), ("$ref:x"), [QueryField.mk ("name") []]⟩

def cPlanRoot : ExecutionOp := .getOne ("users") ("$ref:x") [("name")] []

def cPlan : ExecutionPlan := ⟨cPlanRoot, [cPlanRoot]⟩

/-- An adapter that would happily serve the read, to show the executor
never asks it. -/
def cAdapter : FirestoreAdapter :=
  ⟨fun _ i _ => .ok ⟨i, true, some [(("name"), .str ("Zed"))]⟩,
   fun _ _ _ => .ok []⟩

unseal tokenizeAux parseField parseFieldsLoop parseFieldList resolveSelections planRelationField planRelationFieldAuthed executeOp in
theorem rootId_counterexample :
    parseQuery ("\x7b User(id: \"$ref:x\") \x7b name \x7d \x7d") = Except.ok cNode ∧
    buildExecutionPlan cNode wModels wCtx = Except.ok cPlan ∧
    cPlan.root.id = some ("$ref:x") ∧
    (executeOp cAdapter cPlan.root none).2 = [] ∧
    executeplan cPlan cAdapter =
      .ok ⟨Value.null,
        some [("ExecutionError: cannot resolve runtime ref - no parent document available")]⟩ :=
  ⟨by rfl, by rfl, by rfl, by rfl, by rfl⟩


unseal resolveSelections planRelationField planRelationFieldAuthed in
theorem rootId_witness :
    (∀ parentDoc, resolveId wNode.id parentDoc = .ok (some wNode.id)) ∧
    ∀ adapter, ((executeOp adapter wPlan.root none).2).head? =
      some (.one wPlan.root.collection wNode.id wPlan.root.fieldMask) :=
  (rootId_literal wNode wModels wCtx wPlan (by rfl)).2 (by decide)

/-! ## Batched many-relation reads (C5) -/

theorem resolveDependentsGo_nil (adapter : FirestoreAdapter)
    (docData : List (String × Value)) :
    resolveDependentsGo adapter [] docData = (.ok [], []) := by
  rw [resolveDependentsGo]

theorem executeSnapshots_nil_deps (adapter : FirestoreAdapter) (mask : List String) :
    ∀ snaps : List DocumentSnapshot,
      executeSnapshots adapter [] mask snaps =
        (.ok (snaps.map (fun s =>
          s.data.map (fun d => Value.obj (assembleResult [] mask [] d)))), []) := by
  intro snaps
  induction snaps with
  | nil => rw [executeSnapshots]; simp
  | cons snap rest ih =>
    rw [executeSnapshots]
    cases hdata : snap.data with
    | none => simp [hdata, ih]
    | some docData =>
      simp [hdata, resolveDependentsGo_nil, ih, buildDepObj]

theorem filterMap_filter_filterMap {α β γ : Type} (fetch : α → Option β) (p : β → Bool)
    (q : β → Option γ) :
    ∀ l : List α, ((l.filterMap fetch).filter p).filterMap q =
      l.filterMap (fun i => (fetch i).bind (fun s => if p s then q s else none)) := by
  intro l
  induction l with
  | nil => rfl
  | cons a l ih =>
    cases hf : fetch a with
    | none => simp [List.filterMap_cons, hf, ih]
    | some s =>
      by_cases hp : p s
      · simp [List.filterMap_cons, hf, List.filter_cons, hp, ih]
      · simp [List.filterMap_cons, hf, List.filter_cons, hp, ih]

/-- C5.  A GetMany operation whose parent document holds a non-empty list
of string foreign ids issues exactly one batched multi-document adapter
read carrying all of the ids (the call list is the singleton `[many c ids
mask]`), and — assuming the adapter returns the documents in requested-id
order (`ids.filterMap fetch`) — the resolved relation array is ordered by
the source foreign-id array, with ids that are not found (or whose
document does not exist or carries no data) dropped. -/
theorem getMany_single_batched_read :
    ∀ (adapter : FirestoreAdapter) (c idsFrom : String) (mask : List String)
      (parent : List (String × Value)) (rawIds : List Value) (ids : List String)
      (fetch : String → Option DocumentSnapshot),
      parent.lookup idsFrom = some (Value.arr rawIds) →
      stringEntries rawIds = ids →
      ids ≠ [] →
      adapter.getMany c ids mask = .ok (ids.filterMap fetch) →
      executeOp adapter (.getMany c idsFrom mask []) (some parent) =
        (.ok (Value.arr (ids.filterMap (fun i => (fetch i).bind (fun s =>
            if s.«exists» then
              s.data.map (fun d => Value.obj (assembleResult [] mask [] d))
            else none)))),
         [.many c ids mask]) := by
  intro adapter c idsFrom mask parent rawIds ids fetch hlook hids hne hAd
  have hraw : rawIds.length ≠ 0 := by
    intro h0
    rw [List.length_eq_zero] at h0
    subst h0
    simp [stringEntries] at hids
    exact hne hids
  have hidlen : ids.length ≠ 0 := by
    intro h0
    rw [List.length_eq_zero] at h0
    exact hne h0
  simp only [executeOp]
  rw [hlook]
  simp only [if_neg hraw, hids, if_neg hidlen, hAd]
  rw [executeSnapshots_nil_deps]
  simp only [List.filterMap_map, Function.comp_def]
  rw [filterMap_filter_filterMap fetch (fun s => s.«exists»)
    (fun s => s.data.map (fun d => Value.obj (assembleResult [] mask [] d))) ids]

def gParent : List (String × Value) :=
  [(("rsvpUserIds"), .arr [.str ("u1"), .str ("u2"), .str ("u3")])]

def gFetch : String → Option DocumentSnapshot :=
  fun i => some ⟨i, true, some [(("name"), .str i)]⟩

def gAdapter : FirestoreAdapter :=
  ⟨fun _ i _ => .ok ⟨i, false, none⟩,
   fun _ ids _ => .ok (ids.filterMap gFetch)⟩

theorem getMany_witness :
    executeOp gAdapter (.getMany ("users") ("rsvpUserIds") [("name")] []) (some gParent) =
      (.ok (Value.arr (([("u1"), ("u2"), ("u3")] : List String).filterMap (fun i =>
          (gFetch i).bind (fun s =>
            if s.«exists» then
              s.data.map (fun d => Value.obj (assembleResult [] [("name")] [] d))
            else none)))),
       [.many ("users") [("u1"), ("u2"), ("u3")] [("name")]]) :=
  getMany_single_batched_read gAdapter ("users") ("rsvpUserIds") [("name")] gParent
    [.str ("u1"), .str ("u2"), .str ("u3")] [("u1"), ("u2"), ("u3")] gFetch
    (by rfl) (by rfl) (by simp) (by rfl)


/-! ## Soft absences (C6) -/

theorem refId_roundtrip (f : String) :
    (("$ref:") ++ f).data.take 5 = refMarker ∧
    String.mk ((("$ref:") ++ f).data.drop 5) = f := by
  constructor
  · rw [String.data_append, List.take_append_of_le_length (by decide)]
    decide
  · rw [String.data_append, List.drop_append_of_le_length (by decide)]
    rw [show (("$ref:").data).drop 5 = [] from rfl, List.nil_append]

theorem resolveId_deferred_soft_null {f : String} {d : List (String × Value)}
    (h : ∀ str, d.lookup f ≠ some (Value.str str)) :
    resolveId (("$ref:") ++ f) (some d) = .ok none := by
  obtain ⟨htake, hdrop⟩ := refId_roundtrip f
  rw [resolveId, if_neg (not_not_intro htake), hdrop]
  cases hl : d.lookup f with
  | none => simp [hl]
  | some v =>
    cases v with
    | str str => exact absurd hl (h str)
    | null => simp [hl]
    | num n => simp [hl]
    | bool b => simp [hl]
    | arr vs => simp [hl]
    | obj fs => simp [hl]

/-- C6.  Soft absences resolve to null without an error and without a read
for that branch: (1) a GetOne whose deferred parent field is absent or not
a string yields null with no adapter call; (2) a GetOne whose document
does not exist yields null (after its one read); (3) a GetMany whose
parent field is absent or not an array yields null with no adapter call;
(4) a GetMany whose array has no string entries (in particular an empty
array) yields null with no adapter call. -/
theorem soft_absences_resolve_null :
    (∀ (adapter : FirestoreAdapter) (c f : String) (mask : List String)
        (deps : List DependentRelation) (d : List (String × Value)),
      (∀ str, d.lookup f ≠ some (Value.str str)) →
      executeOp adapter (.getOne c (("$ref:") ++ f) mask deps) (some d) =
        (.ok Value.null, [])) ∧
    (∀ (adapter : FirestoreAdapter) (c idStr : String) (mask : List String)
        (deps : List DependentRelation) (parent : Option (List (String × Value)))
        (i : String) (snap : DocumentSnapshot),
      resolveId idStr parent = .ok (some i) →
      adapter.getOne c i mask = .ok snap →
      snap.«exists» = false →
      executeOp adapter (.getOne c idStr mask deps) parent =
        (.ok Value.null, [.one c i mask])) ∧
    (∀ (adapter : FirestoreAdapter) (c f : String) (mask : List String)
        (deps : List DependentRelation) (parent : List (String × Value)),
      (∀ vs, parent.lookup f ≠ some (Value.arr vs)) →
      executeOp adapter (.getMany c f mask deps) (some parent) =
        (.ok Value.null, [])) ∧
    (∀ (adapter : FirestoreAdapter) (c f : String) (mask : List String)
        (deps : List DependentRelation) (parent : List (String × Value))
        (vs : List Value),
      parent.lookup f = some (Value.arr vs) →
      stringEntries vs = [] →
      executeOp adapter (.getMany c f mask deps) (some parent) =
        (.ok Value.null, [])) := by
  refine ⟨?_, ?_, ?_, ?_⟩
  · intro adapter c f mask deps d h
    simp only [executeOp]
    rw [resolveId_deferred_soft_null h]
  · intro adapter c idStr mask deps parent i snap hres hAd hex
    simp only [executeOp]
    rw [hres]
    simp only []
    rw [hAd]
    simp [hex]
  · intro adapter c f mask deps parent h
    simp only [executeOp]
  · intro adapter c f mask deps parent vs hl hse
    simp only [executeOp]
    rw [hl]
    by_cases hraw : vs.length = 0
    · simp [hraw]
    · simp [hraw, hse]

theorem soft_absences_witness :
    (executeOp gAdapter (.getOne ("users") (("$ref:") ++ ("organizerId")) [("name")] [])
        (some [(("title"), .str ("T"))]) = (.ok Value.null, [])) ∧
    (executeOp gAdapter (.getOne ("users") ("u9") [("name")] []) none =
      (.ok Value.null, [.one ("users") ("u9") [("name")]])) ∧
    (executeOp gAdapter (.getMany ("users") ("rsvpUserIds") [("name")] [])
        (some [(("rsvpUserIds"), .str ("oops"))]) = (.ok Value.null, [])) ∧
    (executeOp gAdapter (.getMany ("users") ("rsvpUserIds") [("name")] [])
        (some [(("rsvpUserIds"), .arr [.num 1, .bool true])]) = (.ok Value.null, [])) := by
  refine ⟨?_, ?_, ?_, ?_⟩
  · exact soft_absences_resolve_null.1 gAdapter ("users") ("organizerId") [("name")] []
      [(("title"), .str ("T"))] (by intro str; simp [List.lookup])
  · exact soft_absences_resolve_null.2.1 gAdapter ("users") ("u9") [("name")] [] none
      ("u9") ⟨("u9"), false, none⟩ (by rfl) (by rfl) (by rfl)
  · exact soft_absences_resolve_null.2.2.1 gAdapter ("users") ("rsvpUserIds") [("name")] []
      [(("rsvpUserIds"), .str ("oops"))] (by intro vs; simp [List.lookup])
  · exact soft_absences_resolve_null.2.2.2 gAdapter ("users") ("rsvpUserIds") [("name")] []
      [(("rsvpUserIds"), .arr [.num 1, .bool true])] [.num 1, .bool true]
      (by rfl) (by rfl)


/-! ## Execution error handling (C7) -/

/-- C7.  A thrown `ExecutionError` is caught by the top-level `executeplan`
and converted into a response with null data and a non-empty error list
(conjunct 1); in particular a GetMany root operation, which has no parent
document, throws exactly such an error with no read issued (conjunct 2);
any failure that is not an `ExecutionError` — here an adapter fault —
propagates uncaught to the caller (conjunct 3). -/
theorem executionError_caught_faults_propagate :
    (∀ (plan : ExecutionPlan) (adapter : FirestoreAdapter) (e : ExecutionError),
      (executeOp adapter plan.root none).1 = .error (.execError e) →
      executeplan plan adapter = .ok ⟨Value.null, some [e.message]⟩ ∧
      ∀ errs, some [e.message] = some errs → errs ≠ []) ∧
    (∀ (c f : String) (mask : List String) (deps : List DependentRelation)
        (adapter : FirestoreAdapter),
      executeOp adapter (.getMany c f mask deps) none =
        (.error (.execError ⟨("ExecutionError: getMany op for collection ") ++ c
          ++ (" has no parent document")⟩), [])) ∧
    (∀ (plan : ExecutionPlan) (adapter : FirestoreAdapter) (fault : AdapterFault),
      (executeOp adapter plan.root none).1 = .error (.fault fault) →
      executeplan plan adapter = .error fault) := by
  refine ⟨?_, ?_, ?_⟩
  · intro plan adapter e h
    refine ⟨?_, by intro errs herrs; cases herrs; simp⟩
    rw [executeplan, h]
  · intro c f mask deps adapter
    simp [executeOp]
  · intro plan adapter fault h
    rw [executeplan, h]

/-- An always-faulting adapter, used to show fault propagation. -/
def faultAdapter : FirestoreAdapter :=
  ⟨fun _ _ _ => .error ⟨("store unavailable")⟩,
   fun _ _ _ => .error ⟨("store unavailable")⟩⟩

def badRootPlan : ExecutionPlan :=
  ⟨.getMany ("users") ("rsvpUserIds") [("name")] [],
   [.getMany ("users") ("rsvpUserIds") [("name")] []]⟩

def oneRootPlan : ExecutionPlan :=
  ⟨.getOne ("users") ("u1") [("name")] [], [.getOne ("users") ("u1") [("name")] []]⟩

unseal executeOp resolveDependentsGo executeSnapshots in
theorem executionError_witness :
    (executeplan badRootPlan gAdapter =
      .ok ⟨Value.null, some [("ExecutionError: getMany op for collection users has no parent document")]⟩ ∧
      ∀ errs, some [("ExecutionError: getMany op for collection users has no parent document")]
        = some errs → errs ≠ []) ∧
    executeplan oneRootPlan faultAdapter = .error ⟨("store unavailable")⟩ := by
  refine ⟨?_, ?_⟩
  · exact executionError_caught_faults_propagate.1 badRootPlan gAdapter
      ⟨("ExecutionError: getMany op for collection users has no parent document")⟩ (by rfl)
  · exact executionError_caught_faults_propagate.2.2 oneRootPlan faultAdapter
      ⟨("store unavailable")⟩ (by rfl)

/-! ## All-missing GetMany yields an empty array (C10) -/

theorem executeSnapshots_all_data_none (adapter : FirestoreAdapter)
    (deps : List DependentRelation) (mask : List String) :
    ∀ snaps : List DocumentSnapshot, (∀ s ∈ snaps, s.data = none) →
      executeSnapshots adapter deps mask snaps =
        (.ok (snaps.map (fun _ => none)), []) := by
  intro snaps
  induction snaps with
  | nil => intro _; rw [executeSnapshots]; simp
  | cons snap rest ih =>
    intro hall
    have hd : snap.data = none := hall snap (List.mem_cons_self _ _)
    rw [executeSnapshots]
    simp [hd, ih (fun s hs => hall s (List.mem_cons_of_mem _ hs))]

/-- C10.  A GetMany whose parent yields a non-empty list of string ids but
whose adapter reply reports every id as not found (every snapshot has
`exists = false`), or every found document's data as undefined, resolves
to the empty array — not to null (conjunct 1); by contrast a parent whose
array field is absent resolves to null (conjunct 2). -/
theorem getMany_all_missing_empty_array :
    (∀ (adapter : FirestoreAdapter) (c f : String) (mask : List String)
        (deps : List DependentRelation) (parent : List (String × Value))
        (rawIds : List Value) (ids : List String) (snaps : List DocumentSnapshot),
      parent.lookup f = some (Value.arr rawIds) →
      stringEntries rawIds = ids →
      ids ≠ [] →
      adapter.getMany c ids mask = .ok snaps →
      ((∀ s ∈ snaps, s.«exists» = false) ∨ (∀ s ∈ snaps, s.data = none)) →
      executeOp adapter (.getMany c f mask deps) (some parent) =
        (.ok (Value.arr []), [.many c ids mask]) ∧ Value.arr [] ≠ Value.null) ∧
    (∀ (adapter : FirestoreAdapter) (c f : String) (mask : List String)
        (deps : List DependentRelation),
      executeOp adapter (.getMany c f mask deps) (some []) = (.ok Value.null, [])) := by
  constructor
  · intro adapter c f mask deps parent rawIds ids snaps hlook hids hne hAd hmiss
    refine ⟨?_, by simp⟩
    have hraw : rawIds.length ≠ 0 := by
      intro h0
      rw [List.length_eq_zero] at h0
      subst h0
      simp [stringEntries] at hids
      exact hne hids
    have hidlen : ids.length ≠ 0 := by
      intro h0
      rw [List.length_eq_zero] at h0
      exact hne h0
    simp only [executeOp]
    rw [hlook]
    simp only [if_neg hraw, hids, if_neg hidlen, hAd]
    rcases hmiss with hmiss | hmiss
    · have hfilter : snaps.filter (fun s => s.«exists») = [] := by
        rw [List.filter_eq_nil]
        intro s hs
        simp [hmiss s hs]
      rw [hfilter, executeSnapshots]
      simp
    · have hfilter : ∀ s ∈ snaps.filter (fun s => s.«exists»), s.data = none := by
        intro s hs
        exact hmiss s (List.mem_of_mem_filter hs)
      rw [executeSnapshots_all_data_none adapter deps mask _ hfilter]
      simp
  · intro adapter c f mask deps
    simp [executeOp, List.lookup]

/-- An adapter that reports every requested id as not found. -/
def faultFreeMissAdapter : FirestoreAdapter :=
  ⟨fun _ i _ => .ok ⟨i, false, none⟩,
   fun _ ids _ => .ok (ids.map (fun i => ⟨i, false, none⟩))⟩

theorem getMany_all_missing_witness :
    (executeOp faultFreeMissAdapter (.getMany ("users") ("rsvpUserIds") [("name")] [])
        (some gParent) =
      (.ok (Value.arr []), [.many ("users") [("u1"), ("u2"), ("u3")] [("name")]]) ∧
      Value.arr [] ≠ Value.null) ∧
    executeOp faultFreeMissAdapter (.getMany ("users") ("rsvpUserIds") [("name")] [])
      (some []) = (.ok Value.null, []) := by
  refine ⟨?_, ?_⟩
  · exact getMany_all_missing_empty_array.1 faultFreeMissAdapter ("users") ("rsvpUserIds")
      [("name")] [] gParent [.str ("u1"), .str ("u2"), .str ("u3")]
      [("u1"), ("u2"), ("u3")]
      [⟨("u1"), false, none⟩, ⟨("u2"), false, none⟩, ⟨("u3"), false, none⟩]
      (by rfl) (by rfl) (by simp) (by rfl)
      (Or.inl (by intro s hs; fin_cases hs <;> rfl))
  · exact getMany_all_missing_empty_array.2 faultFreeMissAdapter ("users") ("rsvpUserIds")
      [("name")] []


/-! ## Parser error positions (C8) -/

unseal tokenizeAux parseField parseFieldsLoop parseFieldList in
/-- C8.  `parse` fails with a position-carrying error on malformed input:
an empty selection set between braces is a syntax error at the position of
the token that closed the empty list (conjunct 1, universally over token
streams; conjunct 3 end-to-end on a concrete query text, where the error
position is the character offset of the closing brace); trailing text
after the root selection's closing brace is a syntax error at the
offending token's position (conjunct 2 universally, conjunct 4 end-to-end
at the character offset of the trailing word). -/
theorem parse_errors_carry_positions :
    (∀ ts : List Token,
      (peekTok ts).kind = .rbrace ∨ (peekTok ts).kind = .eof →
      parseFieldList ts =
        .error ⟨("selection set cannot be empty"), (peekTok ts).position⟩) ∧
    (∀ (ts : List Token)
        (v₁ : { p : Token × List Token // p.2.length < (stripQueryWord ts).length })
        (nr : QueryNode × List Token)
        (v₃ : { p : Token × List Token // p.2.length < nr.2.length }),
      consumeTok .lbrace (stripQueryWord ts) = .ok v₁ →
      parseModelSelection (v₁.1).2 = .ok nr →
      consumeTok .rbrace nr.2 = .ok v₃ →
      (peekTok (v₃.1).2).kind ≠ .eof →
      parseQueryTokens ts =
        .error ⟨("expected end of query"), (peekTok (v₃.1).2).position⟩) ∧
    parseQuery ("\x7b M(id: \"x\") \x7b \x7d \x7d") =
      .error ⟨("selection set cannot be empty"), 15⟩ ∧
    parseQuery ("\x7b M(id: \"x\") \x7b f \x7d \x7d extra") =
      .error ⟨("expected end of query"), 21⟩ := by
  refine ⟨?_, ?_, ?_, ?_⟩
  · intro ts h
    rw [parseFieldList, parseFieldsLoop, if_pos h]
  · intro ts v₁ nr v₃ h₁ h₂ h₃ hne
    rw [parseQueryTokens]
    simp only [h₁, h₂, h₃]
    rw [if_pos hne]
  · rfl
  · rfl

unseal parseField parseFieldsLoop parseFieldList in
theorem parse_errors_witness :
    parseFieldList [⟨.rbrace, ("\x7d"), 9⟩, ⟨.eof, (""), 10⟩] =
      .error ⟨("selection set cannot be empty"), 9⟩ ∧
    parseQueryTokens
      [⟨.lbrace, ("\x7b"), 0⟩, ⟨.word, ("M"), 2⟩, ⟨.lparen, ("("), 3⟩,
       ⟨.word, ("id"), 4⟩, ⟨.colon, (":"), 6⟩, ⟨.string, ("x"), 8⟩,
       ⟨.rparen, (")"), 11⟩, ⟨.lbrace, ("\x7b"), 13⟩, ⟨.word, ("f"), 15⟩,
       ⟨.rbrace, ("\x7d"), 17⟩, ⟨.rbrace, ("\x7d"), 19⟩, ⟨.word, ("extra"), 21⟩,
       ⟨.eof, (""), 26⟩] =
      .error ⟨("expected end of query"), 21⟩ := by
  constructor
  · exact parse_errors_carry_positions.1 [⟨.rbrace, ("\x7d"), 9⟩, ⟨.eof, (""), 10⟩]
      (Or.inl rfl)
  · exact parse_errors_carry_positions.2.1
      [⟨.lbrace, ("\x7b"), 0⟩, ⟨.word, ("M"), 2⟩, ⟨.lparen, ("("), 3⟩,
       ⟨.word, ("id"), 4⟩, ⟨.colon, (":"), 6⟩, ⟨.string, ("x"), 8⟩,
       ⟨.rparen, (")"), 11⟩, ⟨.lbrace, ("\x7b"), 13⟩, ⟨.word, ("f"), 15⟩,
       ⟨.rbrace, ("\x7d"), 17⟩, ⟨.rbrace, ("\x7d"), 19⟩, ⟨.word, ("extra"), 21⟩,
       ⟨.eof, (""), 26⟩]
      ⟨(⟨.lbrace, ("\x7b"), 0⟩,
        [⟨.word, ("M"), 2⟩, ⟨.lparen, ("("), 3⟩, ⟨.word, ("id"), 4⟩,
         ⟨.colon, (":"), 6⟩, ⟨.string, ("x"), 8⟩, ⟨.rparen, (")"), 11⟩,
         ⟨.lbrace, ("\x7b"), 13⟩, ⟨.word, ("f"), 15⟩, ⟨.rbrace, ("\x7d"), 17⟩,
         ⟨.rbrace, ("\x7d"), 19⟩, ⟨.word, ("extra"), 21⟩, ⟨.eof, (""), 26⟩]), by decide⟩
      (⟨("M"), ("x"), [QueryField.mk ("f") []]⟩,
        [⟨.rbrace, ("\x7d"), 19⟩, ⟨.word, ("extra"), 21⟩, ⟨.eof, (""), 26⟩])
      ⟨(⟨.rbrace, ("\x7d"), 19⟩, [⟨.word, ("extra"), 21⟩, ⟨.eof, (""), 26⟩]), by decide⟩
      (by rfl) (by rfl) (by rfl) (by decide)

/-! ## Determinism (C9) -/

/-- C9.  The pipeline is deterministic: for a fixed query text, model map,
request context and adapter (a fixed answer for every read — the embedding
of a fixed document snapshot), parsing, planning and executing twice
yields identical results; in particular two runs of the full
`appExecute` pipeline give the same response.  The source's only
concurrency, `Promise.all` over independent branches, preserves array
order and is embedded as order-preserving sequential evaluation. -/
theorem pipeline_deterministic :
    ∀ (query : String) (models : Models) (ctx : QueryContext)
      (adapter : FirestoreAdapter),
      parseQuery query = parseQuery query ∧
      (∀ node : QueryNode, buildExecutionPlan node models ctx =
        buildExecutionPlan node models ctx) ∧
      (∀ plan : ExecutionPlan, executeplan plan adapter = executeplan plan adapter) ∧
      appExecute query models ctx adapter = appExecute query models ctx adapter :=
  fun _ _ _ _ => ⟨rfl, fun _ => rfl, fun _ => rfl, rfl⟩

end Flare
